import Mathlib

/-!
# Verification of the roadguard-ai detection correlation & scoring engine

This file gives a shallow embedding, in Lean 4, of the pure algorithmic core of
the repository:

* `calculateIou`, `normalizeAiType`, `calculatePrf` and `compareDetections`
  from `src/unnamed/part_008` (the detection/ground-truth comparison module);
* `interpolateLocation` from `src/components/VideoAnalysis.tsx` and the sorting
  step of `parseGpx` from `src/unnamed/part_007` (the GPX track interpolator).

JavaScript numbers are modelled as exact rationals (`ℚ`), JavaScript strings as
Lean `String` (the label alphabet used by the program is ASCII, where
`Char.toUpper`/`Char.toLower` agree with JavaScript `toUpperCase`/`toLowerCase`),
`Date` values as their `getTime()` millisecond value in `ℚ`, and the JavaScript
`Set<number>` of consumed ground-truth indices as a `Finset ℤ` (the sentinel
index `-1` is representable, as in the source). Counters are `ℕ`.
-/

namespace RoadGuard

/-- `BoundingBox` from `src/types.ts`: percentage coordinates, exact rationals. -/
structure BoundingBox where
  x_min : ℚ
  y_min : ℚ
  x_max : ℚ
  y_max : ℚ
deriving DecidableEq, Repr

/-- `Defect` from `src/types.ts`, restricted to the fields `compareDetections`
reads (`type` and `boundingBox`). -/
structure Defect where
  type : String
  boundingBox : BoundingBox
deriving DecidableEq, Repr

/-- `GroundTruthDefect` from `src/types.ts`. -/
structure GroundTruthDefect where
  type : String
  boundingBox : BoundingBox
deriving DecidableEq, Repr

/-- `calculateIou` from `src/unnamed/part_008` lines 7–26: intersection over
union of two axis-aligned boxes, with an early `0` return when the
intersection has non-positive width or height. -/
def calculateIou (boxA boxB : BoundingBox) : ℚ :=
  let xA := max boxA.x_min boxB.x_min
  let yA := max boxA.y_min boxB.y_min
  let xB := min boxA.x_max boxB.x_max
  let yB := min boxA.y_max boxB.y_max
  let interWidth := xB - xA
  let interHeight := yB - yA
  if interWidth ≤ 0 ∨ interHeight ≤ 0 then 0
  else
    let interArea := interWidth * interHeight
    let boxAArea := (boxA.x_max - boxA.x_min) * (boxA.y_max - boxA.y_min)
    let boxBArea := (boxB.x_max - boxB.x_min) * (boxB.y_max - boxB.y_min)
    interArea / (boxAArea + boxBArea - interArea)

/-- The denominator of the division performed by `calculateIou` when the
intersection is non-degenerate. -/
def iouDenominator (boxA boxB : BoundingBox) : ℚ :=
  (boxA.x_max - boxA.x_min) * (boxA.y_max - boxA.y_min)
    + (boxB.x_max - boxB.x_min) * (boxB.y_max - boxB.y_min)
    - (min boxA.x_max boxB.x_max - max boxA.x_min boxB.x_min)
      * (min boxA.y_max boxB.y_max - max boxA.y_min boxB.y_min)

theorem calculateIou_eq_zero_of_degenerate (boxA boxB : BoundingBox)
    (h : min boxA.x_max boxB.x_max - max boxA.x_min boxB.x_min ≤ 0 ∨
         min boxA.y_max boxB.y_max - max boxA.y_min boxB.y_min ≤ 0) :
    calculateIou boxA boxB = 0 := by
  unfold calculateIou
  simp only [if_pos h]

theorem interWidth_le_of_malformed (boxA boxB : BoundingBox)
    (h : boxA.x_max - boxA.x_min ≤ 0 ∨ boxB.x_max - boxB.x_min ≤ 0) :
    min boxA.x_max boxB.x_max - max boxA.x_min boxB.x_min ≤ 0 := by
  rcases h with h | h
  · have h1 : min boxA.x_max boxB.x_max ≤ boxA.x_max := min_le_left _ _
    have h2 : boxA.x_min ≤ max boxA.x_min boxB.x_min := le_max_left _ _
    linarith
  · have h1 : min boxA.x_max boxB.x_max ≤ boxB.x_max := min_le_right _ _
    have h2 : boxB.x_min ≤ max boxA.x_min boxB.x_min := le_max_right _ _
    linarith

theorem interHeight_le_of_malformed (boxA boxB : BoundingBox)
    (h : boxA.y_max - boxA.y_min ≤ 0 ∨ boxB.y_max - boxB.y_min ≤ 0) :
    min boxA.y_max boxB.y_max - max boxA.y_min boxB.y_min ≤ 0 := by
  rcases h with h | h
  · have h1 : min boxA.y_max boxB.y_max ≤ boxA.y_max := min_le_left _ _
    have h2 : boxA.y_min ≤ max boxA.y_min boxB.y_min := le_max_left _ _
    linarith
  · have h1 : min boxA.y_max boxB.y_max ≤ boxB.y_max := min_le_right _ _
    have h2 : boxB.y_min ≤ max boxA.y_min boxB.y_min := le_max_right _ _
    linarith

/-- C3: `calculateIou` is total over arbitrary boxes: it returns exactly `0`
whenever either box is malformed (non-positive width or height) or the
intersection has non-positive width or height, and in the remaining case the
denominator of its single division is strictly positive, so it never divides
by zero. -/
theorem calculateIou_total (boxA boxB : BoundingBox) :
    ((boxA.x_max - boxA.x_min ≤ 0 ∨ boxA.y_max - boxA.y_min ≤ 0 ∨
      boxB.x_max - boxB.x_min ≤ 0 ∨ boxB.y_max - boxB.y_min ≤ 0 ∨
      min boxA.x_max boxB.x_max - max boxA.x_min boxB.x_min ≤ 0 ∨
      min boxA.y_max boxB.y_max - max boxA.y_min boxB.y_min ≤ 0) →
      calculateIou boxA boxB = 0) ∧
    (0 < min boxA.x_max boxB.x_max - max boxA.x_min boxB.x_min →
     0 < min boxA.y_max boxB.y_max - max boxA.y_min boxB.y_min →
     0 < iouDenominator boxA boxB) := by
  constructor
  · intro h
    apply calculateIou_eq_zero_of_degenerate
    rcases h with h | h | h | h | h | h
    · exact Or.inl (interWidth_le_of_malformed boxA boxB (Or.inl h))
    · exact Or.inr (interHeight_le_of_malformed boxA boxB (Or.inl h))
    · exact Or.inl (interWidth_le_of_malformed boxA boxB (Or.inr h))
    · exact Or.inr (interHeight_le_of_malformed boxA boxB (Or.inr h))
    · exact Or.inl h
    · exact Or.inr h
  · intro hw hh
    unfold iouDenominator
    have hwA : min boxA.x_max boxB.x_max - max boxA.x_min boxB.x_min ≤
        boxA.x_max - boxA.x_min := by
      have h1 : min boxA.x_max boxB.x_max ≤ boxA.x_max := min_le_left _ _
      have h2 : boxA.x_min ≤ max boxA.x_min boxB.x_min := le_max_left _ _
      linarith
    have hwB : min boxA.x_max boxB.x_max - max boxA.x_min boxB.x_min ≤
        boxB.x_max - boxB.x_min := by
      have h1 : min boxA.x_max boxB.x_max ≤ boxB.x_max := min_le_right _ _
      have h2 : boxB.x_min ≤ max boxA.x_min boxB.x_min := le_max_right _ _
      linarith
    have hhA : min boxA.y_max boxB.y_max - max boxA.y_min boxB.y_min ≤
        boxA.y_max - boxA.y_min := by
      have h1 : min boxA.y_max boxB.y_max ≤ boxA.y_max := min_le_left _ _
      have h2 : boxA.y_min ≤ max boxA.y_min boxB.y_min := le_max_left _ _
      linarith
    have hhB : min boxA.y_max boxB.y_max - max boxA.y_min boxB.y_min ≤
        boxB.y_max - boxB.y_min := by
      have h1 : min boxA.y_max boxB.y_max ≤ boxB.y_max := min_le_right _ _
      have h2 : boxB.y_min ≤ max boxA.y_min boxB.y_min := le_max_right _ _
      linarith
    nlinarith

/-- Witness for C3 at a concrete malformed box (zero width) and a concrete
non-degenerate pair. -/
theorem calculateIou_total_witness :
    calculateIou ⟨0, 0, 0, 1⟩ ⟨0, 0, 1, 1⟩ = 0 ∧
    0 < iouDenominator ⟨0, 0, 1, 1⟩ ⟨0, 0, 1, 1⟩ :=
  ⟨(calculateIou_total ⟨0, 0, 0, 1⟩ ⟨0, 0, 1, 1⟩).1 (by norm_num),
   (calculateIou_total ⟨0, 0, 1, 1⟩ ⟨0, 0, 1, 1⟩).2 (by norm_num) (by norm_num)⟩

/-- C9: IoU is symmetric, and every box of positive width and height has IoU
exactly `1` with itself (exact rational arithmetic). -/
theorem calculateIou_symm_self (boxA boxB : BoundingBox) :
    calculateIou boxA boxB = calculateIou boxB boxA ∧
    (0 < boxA.x_max - boxA.x_min → 0 < boxA.y_max - boxA.y_min →
      calculateIou boxA boxA = 1) := by
  constructor
  · unfold calculateIou
    rw [max_comm boxB.x_min boxA.x_min, max_comm boxB.y_min boxA.y_min,
        min_comm boxB.x_max boxA.x_max, min_comm boxB.y_max boxA.y_max]
    ring_nf
  · intro hw hh
    unfold calculateIou
    simp only [max_self, min_self]
    rw [if_neg]
    · have harea : (boxA.x_max - boxA.x_min) * (boxA.y_max - boxA.y_min) ≠ 0 := by
        positivity
      field_simp
    · push_neg
      constructor <;> linarith

/-- Witness for C9 at the unit box. -/
theorem calculateIou_symm_self_witness :
    calculateIou ⟨0, 0, 1, 1⟩ ⟨0, 0, 1, 1⟩ = 1 :=
  (calculateIou_symm_self ⟨0, 0, 1, 1⟩ ⟨0, 0, 1, 1⟩).2 (by norm_num) (by norm_num)

/-! ## GPX track interpolation (`src/components/VideoAnalysis.tsx`, `src/unnamed/part_007`) -/

/-- `GpxPoint` from `src/types.ts`; the `Date` field is modelled by its
`getTime()` millisecond value. -/
structure GpxPoint where
  lat : ℚ
  lon : ℚ
  time : ℚ
deriving DecidableEq, Repr

instance : Inhabited GpxPoint := ⟨⟨0, 0, 0⟩⟩

/-- The scan loop of `interpolateLocation` (`VideoAnalysis.tsx` lines 104–110):
find the first pair of consecutive points bracketing the target time. -/
def findBracket (t : ℚ) : List GpxPoint → Option (GpxPoint × GpxPoint)
  | p :: q :: rest =>
    if p.time ≤ t ∧ t ≤ q.time then some (p, q) else findBracket t (q :: rest)
  | _ => none

/-- `interpolateLocation` from `src/components/VideoAnalysis.tsx` lines 97–125.
`track[0]` and `track[track.length - 1]` are modelled with `List.getD`. -/
def interpolateLocation (timestamp : ℚ) (track : List GpxPoint)
    (videoStartTime : ℚ) : Option (ℚ × ℚ) :=
  if track = [] then none
  else
    let targetTime := videoStartTime + timestamp * 1000
    match findBracket targetTime track with
    | some (p1, p2) =>
      let timeDiff := p2.time - p1.time
      if timeDiff = 0 then some (p1.lat, p1.lon)
      else
        let factor := (targetTime - p1.time) / timeDiff
        some (p1.lat + (p2.lat - p1.lat) * factor,
              p1.lon + (p2.lon - p1.lon) * factor)
    | none =>
      if targetTime < (track.getD 0 default).time then
        some ((track.getD 0 default).lat, (track.getD 0 default).lon)
      else
        some ((track.getD (track.length - 1) default).lat,
              (track.getD (track.length - 1) default).lon)

/-- Timestamp order on track points, as used by the comparator
`(a, b) => a.time - b.time` in `parseGpx` (`src/unnamed/part_007` line 41). -/
def trackLe (a b : GpxPoint) : Prop := a.time ≤ b.time

instance : DecidableRel trackLe := fun a b =>
  inferInstanceAs (Decidable (a.time ≤ b.time))

instance : IsTotal GpxPoint trackLe := ⟨fun a b => le_total a.time b.time⟩

instance : IsTrans GpxPoint trackLe := ⟨fun _ _ _ h1 h2 => le_trans h1 h2⟩

/-- The sorting step of `parseGpx` (`src/unnamed/part_007` lines 40–43):
`points.sort((a, b) => a.time.getTime() - b.time.getTime())`, a comparator
sort producing a timestamp-sorted permutation of the parsed points. -/
def sortTrack (points : List GpxPoint) : List GpxPoint :=
  List.insertionSort trackLe points

/-- `target` is bracketed by the consecutive points at positions `j` and
`j + 1` of the track. -/
def bracketsAt (t : ℚ) (l : List GpxPoint) (j : ℕ) : Prop :=
  j + 1 < l.length ∧ (l.getD j default).time ≤ t ∧ t ≤ (l.getD (j + 1) default).time

theorem bracketsAt_cons_succ (t : ℚ) (p : GpxPoint) (l : List GpxPoint) (j : ℕ) :
    bracketsAt t (p :: l) (j + 1) ↔ bracketsAt t l j := by
  unfold bracketsAt
  simp only [List.getD_cons_succ, List.length_cons]
  constructor
  · rintro ⟨h1, h2, h3⟩
    exact ⟨by omega, h2, h3⟩
  · rintro ⟨h1, h2, h3⟩
    exact ⟨by omega, h2, h3⟩

theorem findBracket_eq_of_first (t : ℚ) (l : List GpxPoint) (i : ℕ)
    (hb : bracketsAt t l i) (hfirst : ∀ j, j < i → ¬ bracketsAt t l j) :
    findBracket t l = some (l.getD i default, l.getD (i + 1) default) := by
  induction l generalizing i with
  | nil => exact absurd hb.1 (by simp)
  | cons p l ih =>
    cases l with
    | nil => exact absurd hb.1 (by simp)
    | cons q rest =>
      cases i with
      | zero =>
        obtain ⟨-, h1, h2⟩ := hb
        simp only [List.getD_cons_zero, List.getD_cons_succ] at h1 h2 ⊢
        unfold findBracket
        rw [if_pos ⟨h1, h2⟩]
      | succ k =>
        have h0 : ¬ bracketsAt t (p :: q :: rest) 0 := hfirst 0 (Nat.succ_pos k)
        have hlen : (0 : ℕ) + 1 < (p :: q :: rest).length := by
          simp
        have hcond : ¬ (p.time ≤ t ∧ t ≤ q.time) := by
          intro hc
          exact h0 ⟨hlen, by simpa using hc.1, by simpa using hc.2⟩
        unfold findBracket
        rw [if_neg hcond]
        rw [ih k ((bracketsAt_cons_succ t p _ k).mp hb)
          (fun j hj => fun hbj =>
            hfirst (j + 1) (by omega) ((bracketsAt_cons_succ t p _ j).mpr hbj))]
        simp [List.getD_cons_succ]

theorem findBracket_none_before (t : ℚ) (l : List GpxPoint)
    (hsorted : l.Pairwise trackLe) (h : t < (l.getD 0 default).time) :
    findBracket t l = none := by
  induction l with
  | nil => rfl
  | cons p l ih =>
    cases l with
    | nil => rfl
    | cons q rest =>
      have hpq : p.time ≤ q.time := (List.pairwise_cons.mp hsorted).1 q (by simp)
      simp only [List.getD_cons_zero] at h
      unfold findBracket
      rw [if_neg (by intro hc; linarith [hc.1])]
      exact ih (List.pairwise_cons.mp hsorted).2 (by simp only [List.getD_cons_zero]; linarith)

theorem getD_mem_of_lt (l : List GpxPoint) (n : ℕ) (h : n < l.length) :
    l.getD n default ∈ l := by
  rw [List.getD_eq_getElem _ _ h]
  exact List.getElem_mem h

theorem findBracket_none_after (t : ℚ) (l : List GpxPoint)
    (hsorted : l.Pairwise trackLe)
    (h : (l.getD (l.length - 1) default).time < t) :
    findBracket t l = none := by
  induction l with
  | nil => rfl
  | cons p l ih =>
    cases l with
    | nil => rfl
    | cons q rest =>
      have hlast : (p :: q :: rest).getD ((p :: q :: rest).length - 1) default =
          (q :: rest).getD ((q :: rest).length - 1) default := by
        simp [List.getD_cons_succ]
      rw [hlast] at h
      have hqlast : q.time ≤ ((q :: rest).getD ((q :: rest).length - 1) default).time := by
        have hmem : (q :: rest).getD ((q :: rest).length - 1) default ∈ q :: rest :=
          getD_mem_of_lt _ _ (by simp)
        rcases List.mem_cons.mp hmem with heq | hmemr
        · rw [heq]
        · exact (List.pairwise_cons.mp (List.pairwise_cons.mp hsorted).2).1 _ hmemr
      unfold findBracket
      rw [if_neg (by intro hc; linarith [hc.2])]
      exact ih (List.pairwise_cons.mp hsorted).2 h

theorem getD_zero_time_le_getD_last_time (l : List GpxPoint)
    (hne : l ≠ []) (hsorted : l.Pairwise trackLe) :
    (l.getD 0 default).time ≤ (l.getD (l.length - 1) default).time := by
  cases l with
  | nil => exact absurd rfl hne
  | cons p l =>
    cases l with
    | nil => simp
    | cons q rest =>
      have hlast : (p :: q :: rest).getD ((p :: q :: rest).length - 1) default =
          (q :: rest).getD ((q :: rest).length - 1) default := by
        simp [List.getD_cons_succ]
      rw [hlast]
      have hmem : (q :: rest).getD ((q :: rest).length - 1) default ∈ q :: rest :=
        getD_mem_of_lt _ _ (by simp)
      simp only [List.getD_cons_zero]
      exact (List.pairwise_cons.mp hsorted).1 _ hmem

/-- C7: on a track whose first bracketing pair of consecutive points is
`(p1, p2) = (track[i], track[i+1])`, the interpolator returns the linear
interpolation `p1 + (p2 - p1) * f` with `f = (target - p1.time) /
(p2.time - p1.time)`, and `p1`'s coordinate directly when the two timestamps
are equal. -/
theorem interpolateLocation_bracket (timestamp videoStartTime : ℚ)
    (track : List GpxPoint) (i : ℕ)
    (hsorted : track.Pairwise trackLe)
    (hb : bracketsAt (videoStartTime + timestamp * 1000) track i)
    (hfirst : ∀ j, j < i → ¬ bracketsAt (videoStartTime + timestamp * 1000) track j) :
    interpolateLocation timestamp track videoStartTime =
      (if (track.getD (i + 1) default).time - (track.getD i default).time = 0 then
        some ((track.getD i default).lat, (track.getD i default).lon)
      else
        some ((track.getD i default).lat +
                ((track.getD (i + 1) default).lat - (track.getD i default).lat) *
                ((videoStartTime + timestamp * 1000 - (track.getD i default).time) /
                  ((track.getD (i + 1) default).time - (track.getD i default).time)),
              (track.getD i default).lon +
                ((track.getD (i + 1) default).lon - (track.getD i default).lon) *
                ((videoStartTime + timestamp * 1000 - (track.getD i default).time) /
                  ((track.getD (i + 1) default).time - (track.getD i default).time)))) := by
  have hne : track ≠ [] := by
    intro hnil
    rw [hnil] at hb
    exact absurd hb.1 (by simp)
  simp only [interpolateLocation, if_neg hne,
    findBracket_eq_of_first _ _ _ hb hfirst]

/-- Witness for C7: the concrete scenario from the specification — track
`[(0, 0, T0), (10, 10, T0 + 10s)]`, target `T0 + 5s`, result `(5, 5)`. -/
theorem interpolateLocation_bracket_witness :
    interpolateLocation 5 [⟨0, 0, 0⟩, ⟨10, 10, 10000⟩] 0 = some (5, 5) := by
  rw [interpolateLocation_bracket 5 0 [⟨0, 0, 0⟩, ⟨10, 10, 10000⟩] 0
    (by constructor <;> simp [trackLe])
    (⟨by norm_num, by norm_num [List.getD], by norm_num [List.getD]⟩)
    (fun j hj => absurd hj (by omega))]
  norm_num [List.getD]

/-- C8: for a sorted non-empty track, a target strictly before the first
point's timestamp resolves to the first point's coordinate, and a target
strictly after the last point's timestamp resolves to the last point's
coordinate. -/
theorem interpolateLocation_clamp (timestamp videoStartTime : ℚ)
    (track : List GpxPoint) (hne : track ≠ [])
    (hsorted : track.Pairwise trackLe) :
    (videoStartTime + timestamp * 1000 < (track.getD 0 default).time →
      interpolateLocation timestamp track videoStartTime =
        some ((track.getD 0 default).lat, (track.getD 0 default).lon)) ∧
    ((track.getD (track.length - 1) default).time < videoStartTime + timestamp * 1000 →
      interpolateLocation timestamp track videoStartTime =
        some ((track.getD (track.length - 1) default).lat,
              (track.getD (track.length - 1) default).lon)) := by
  constructor
  · intro h
    simp only [interpolateLocation, if_neg hne,
      findBracket_none_before _ _ hsorted h, if_pos h]
  · intro h
    have hnotlt : ¬ (videoStartTime + timestamp * 1000 < (track.getD 0 default).time) := by
      have := getD_zero_time_le_getD_last_time track hne hsorted
      linarith
    simp only [interpolateLocation, if_neg hne,
      findBracket_none_after _ _ hsorted h, if_neg hnotlt]

/-- Witness for C8: the concrete scenario from the specification — the
single-point track `[(1, 1, T0)]` with target `T0 - 100s` resolves to
`(1, 1)` by clamp-at-start. -/
theorem interpolateLocation_clamp_witness :
    interpolateLocation (-100) [⟨1, 1, 0⟩] 0 = some (1, 1) :=
  (interpolateLocation_clamp (-100) 0 [⟨1, 1, 0⟩] (by simp)
    (by simp)).1 (by norm_num [List.getD])

/-- Counterexample to C2: `interpolateLocation` does not sort its input, so
resolving a location on a permutation of a track can differ from resolving it
on the timestamp-sorted track. Here the reversed two-point track resolves to
`(10, 10)` while the sorted track resolves to `(5, 5)`. -/
theorem interpolateLocation_not_permutation_invariant :
    List.Perm [⟨10, 10, 10000⟩, ⟨0, 0, 0⟩]
      (sortTrack [(⟨10, 10, 10000⟩ : GpxPoint), ⟨0, 0, 0⟩]) ∧
    interpolateLocation 5 [⟨10, 10, 10000⟩, ⟨0, 0, 0⟩] 0 ≠
      interpolateLocation 5 (sortTrack [⟨10, 10, 10000⟩, ⟨0, 0, 0⟩]) 0 := by
  have hsort : sortTrack [(⟨10, 10, 10000⟩ : GpxPoint), ⟨0, 0, 0⟩] =
      [⟨0, 0, 0⟩, ⟨10, 10, 10000⟩] := by
    simp [sortTrack, List.insertionSort, List.orderedInsert, trackLe]
  have h1 : interpolateLocation 5 [⟨10, 10, 10000⟩, ⟨0, 0, 0⟩] 0 = some (10, 10) := by
    norm_num [interpolateLocation, findBracket, List.getD]
    intro hc
    exact absurd hc (by simp)
  have h2 : interpolateLocation 5 [⟨0, 0, 0⟩, ⟨10, 10, 10000⟩] 0 = some (5, 5) := by
    norm_num [interpolateLocation, findBracket, List.getD]
    intro hc
    exact absurd hc (by simp)
  rw [hsort, h1, h2]
  exact ⟨List.Perm.swap _ _ _, by norm_num⟩

/-- C2 (amended): the sorting of a track by timestamp ascending is performed
by `parseGpx` before it returns (the parser, not the interpolator, is
responsible for sorting): the sort produces a timestamp-sorted permutation of
the parsed points. `interpolateLocation` itself does not sort its input. -/
theorem sortTrack_sorted_perm (points : List GpxPoint) :
    (sortTrack points).Sorted trackLe ∧ List.Perm (sortTrack points) points :=
  ⟨List.sorted_insertionSort trackLe points, List.perm_insertionSort trackLe points⟩

/-! ## Detection comparison (`src/unnamed/part_008`) -/

/-- `sub` is a prefix of `hay` (character lists). -/
def leadsWith : List Char → List Char → Bool
  | _, [] => true
  | [], _ :: _ => false
  | a :: hay, b :: sub => a = b && leadsWith hay sub

/-- `sub` occurs contiguously somewhere in `hay` (character lists). -/
def containsSeq : List Char → List Char → Bool
  | [], sub => sub.isEmpty
  | a :: hay, sub => leadsWith (a :: hay) sub || containsSeq hay sub

/-- `String.prototype.toLowerCase` on the ASCII label alphabet of this
program, where it agrees with `Char.toLower` character by character. -/
def jsToLower (s : String) : String := String.mk (s.data.map Char.toLower)

/-- `String.prototype.includes`. -/
def jsIncludes (s sub : String) : Bool := containsSeq s.data sub.data

/-- `normalizeAiType` from `src/unnamed/part_008` lines 32–38: collapse AI
defect labels containing `crack` (checked first) or `pothole` into the
coarse families `"Crack"` / `"Pothole"`; other labels pass through. -/
def normalizeAiType (type : String) : String :=
  let lowerType := jsToLower type
  if jsIncludes lowerType ("crack") then "Crack"
  else if jsIncludes lowerType ("pothole") then "Pothole"
  else type

/-- The inline ground-truth label normalization
`d.type.charAt(0).toUpperCase() + d.type.slice(1).toLowerCase()` used at
lines 74, 84, 95 and 120 of `src/unnamed/part_008`. -/
def capitalizeType (s : String) : String :=
  match s.data with
  | [] => ""
  | c :: rest => String.mk (Char.toUpper c :: rest.map Char.toLower)

/-- The eight values of the TypeScript union `Defect['type']`
(`src/types.ts` line 26), also the `enum` the AI response schema imposes on
the `type` field (`src/services/geminiService.ts` line 75). -/
def defectTypeValues : List String :=
  ["Pothole", "Rutting", "Alligator Crack", "Roughness", "Distress",
   "Longitudinal Crack", "Transverse Crack", "Block Crack"]

/-- `calculatePrf` from `src/unnamed/part_008` lines 43–48. -/
def calculatePrf (tp fp fn : ℕ) : ℚ × ℚ × ℚ :=
  let precision : ℚ := if 0 < tp + fp then (tp : ℚ) / ((tp : ℚ) + (fp : ℚ)) else 0
  let «recall» : ℚ := if 0 < tp + fn then (tp : ℚ) / ((tp : ℚ) + (fn : ℚ)) else 0
  let f1Score : ℚ :=
    if 0 < precision + «recall» then 2 * (precision * «recall») / (precision + «recall»)
    else 0
  (precision, «recall», f1Score)

/-- One entry of the `perClassData` record built by `compareDetections`. -/
structure ClassData where
  tp : ℕ
  fp : ℕ
  fn : ℕ
  iouSum : ℚ
  totalGroundTruth : ℕ
deriving DecidableEq, Repr

/-- `ClassMetrics` from `src/types.ts`. -/
structure ClassMetrics where
  tp : ℕ
  fp : ℕ
  fn : ℕ
  precision : ℚ
  «recall» : ℚ
  f1Score : ℚ
  totalGroundTruth : ℕ
deriving DecidableEq, Repr

/-- `ValidationMetrics` from `src/types.ts`; the string-keyed
`perClassMetrics` record is modelled as its association list of entries. -/
structure ValidationMetrics where
  «matches» : ℕ
  misses : ℕ
  falsePositives : ℕ
  averageIou : ℚ
  precision : ℚ
  «recall» : ℚ
  f1Score : ℚ
  perClassMetrics : List (String × ClassMetrics)
deriving DecidableEq, Repr

/-- The mutable state threaded through `compareDetections`: the JavaScript
`Set<number>` `matchedGtIndices` (a `Finset ℤ`, since the sentinel index `-1`
is a possible member) and the `perClassData` record (a total function; keys
outside the class list are never read and keep their all-zero initial
value). -/
structure CompState where
  matched : Finset ℤ
  perClass : String → ClassData

/-- Assignment `perClassData[k] = v`. -/
def updClass (pc : String → ClassData) (k : String) (v : ClassData) :
    String → ClassData :=
  fun c => if c = k then v else pc c

/-- Insertion-ordered deduplication, the iteration behaviour of the
JavaScript `Set` union `new Set([...gtClasses, ...aiClasses])`
(`src/unnamed/part_008` lines 73–76). -/
def dedupFirst : List String → List String
  | [] => []
  | c :: rest => c :: (dedupFirst rest).filter (fun x => x ≠ c)

/-- `allClasses` from `src/unnamed/part_008` lines 73–76: normalized
ground-truth classes first, then normalized AI classes, deduplicated in
insertion order. -/
def allClassesOf (aiDefects : List Defect) (gtDefects : List GroundTruthDefect) :
    List String :=
  dedupFirst (gtDefects.map (fun d => capitalizeType d.type) ++
    aiDefects.map (fun d => normalizeAiType d.type))

/-- Per-class initialization (`src/unnamed/part_008` lines 78–87): zero
counters and the ground-truth population of the class. -/
def initClassData (gtDefects : List GroundTruthDefect) (c : String) : ClassData :=
  ⟨0, 0, 0, 0, (gtDefects.filter (fun d => capitalizeType d.type = c)).length⟩

/-- The state at the start of the detection loop. -/
def initState (gtDefects : List GroundTruthDefect) : CompState :=
  ⟨∅, initClassData gtDefects⟩

/-- The indexed view of the ground-truth list produced by
`gtDefects.forEach((gtDefect, gtIndex) => ...)`. -/
def enumIdx : ℕ → List GroundTruthDefect → List (ℕ × GroundTruthDefect)
  | _, [] => []
  | i, d :: rest => (i, d) :: enumIdx (i + 1) rest

/-- The inner loop of the detection pass (`src/unnamed/part_008` lines
92–103): running over the indexed ground truths, skip consumed indices and
label mismatches, and keep the strictly best IoU seen so far, starting from
the sentinel `{ iou: -1, gtIndex: -1 }`. -/
def findBest (aiType : String) (box : BoundingBox)
    (gts : List (ℕ × GroundTruthDefect)) (matched : Finset ℤ) : ℚ × ℤ :=
  gts.foldl
    (fun best p =>
      if (p.1 : ℤ) ∉ matched ∧ capitalizeType p.2.type = aiType then
        let iou := calculateIou box p.2.boundingBox
        if best.1 < iou then (iou, (p.1 : ℤ)) else best
      else best)
    (-1, -1)

/-- One iteration of the detection pass (`src/unnamed/part_008` lines
90–115): a true positive consumes the best reference index and accumulates
its IoU, otherwise a false positive is recorded for the detection's class
(when that class is present in `perClassData`). -/
def processDetection (allClasses : List String)
    (gts : List (ℕ × GroundTruthDefect)) (iouThreshold : ℚ)
    (st : CompState) (aiDefect : Defect) : CompState :=
  let aiType := normalizeAiType aiDefect.type
  let best := findBest aiType aiDefect.boundingBox gts st.matched
  if iouThreshold ≤ best.1 then
    { matched := insert best.2 st.matched,
      perClass := updClass st.perClass aiType
        ⟨(st.perClass aiType).tp + 1, (st.perClass aiType).fp,
         (st.perClass aiType).fn, (st.perClass aiType).iouSum + best.1,
         (st.perClass aiType).totalGroundTruth⟩ }
  else if aiType ∈ allClasses then
    { matched := st.matched,
      perClass := updClass st.perClass aiType
        ⟨(st.perClass aiType).tp, (st.perClass aiType).fp + 1,
         (st.perClass aiType).fn, (st.perClass aiType).iouSum,
         (st.perClass aiType).totalGroundTruth⟩ }
  else st

/-- One iteration of the false-negative pass (`src/unnamed/part_008` lines
118–126): each unconsumed ground-truth index contributes a false negative to
its normalized class. -/
def markMiss (allClasses : List String) (st : CompState)
    (p : ℕ × GroundTruthDefect) : CompState :=
  if (p.1 : ℤ) ∈ st.matched then st
  else
    let gtType := capitalizeType p.2.type
    if gtType ∈ allClasses then
      { matched := st.matched,
        perClass := updClass st.perClass gtType
          ⟨(st.perClass gtType).tp, (st.perClass gtType).fp,
           (st.perClass gtType).fn + 1, (st.perClass gtType).iouSum,
           (st.perClass gtType).totalGroundTruth⟩ }
    else st

/-- The state after the detection pass. -/
def detectState (aiDefects : List Defect) (gtDefects : List GroundTruthDefect)
    (iouThreshold : ℚ) : CompState :=
  aiDefects.foldl
    (processDetection (allClassesOf aiDefects gtDefects) (enumIdx 0 gtDefects)
      iouThreshold)
    (initState gtDefects)

/-- The state after both passes of `compareDetections`. -/
def finalState (aiDefects : List Defect) (gtDefects : List GroundTruthDefect)
    (iouThreshold : ℚ) : CompState :=
  (enumIdx 0 gtDefects).foldl (markMiss (allClassesOf aiDefects gtDefects))
    (detectState aiDefects gtDefects iouThreshold)

/-- `totalTp` accumulated over the class list (`src/unnamed/part_008` lines
130–146). -/
def sumTp (classes : List String) (pc : String → ClassData) : ℕ :=
  (classes.map (fun c => (pc c).tp)).sum

/-- `totalFp` accumulated over the class list. -/
def sumFp (classes : List String) (pc : String → ClassData) : ℕ :=
  (classes.map (fun c => (pc c).fp)).sum

/-- `totalFn` accumulated over the class list. -/
def sumFn (classes : List String) (pc : String → ClassData) : ℕ :=
  (classes.map (fun c => (pc c).fn)).sum

/-- `totalIouSum` accumulated over the class list. -/
def sumIou (classes : List String) (pc : String → ClassData) : ℚ :=
  (classes.map (fun c => (pc c).iouSum)).sum

/-- The per-class metrics derived from one accumulator
(`src/unnamed/part_008` lines 137–140). -/
def mkClassMetrics (d : ClassData) : ClassMetrics :=
  ⟨d.tp, d.fp, d.fn, (calculatePrf d.tp d.fp d.fn).1, (calculatePrf d.tp d.fp d.fn).2.1,
   (calculatePrf d.tp d.fp d.fn).2.2, d.totalGroundTruth⟩

/-- `compareDetections` from `src/unnamed/part_008` lines 57–158 (the
`iouThreshold` parameter defaults to `0.5` at the call sites that omit
it). -/
def compareDetections (aiDefects : List Defect) (gtDefects : List GroundTruthDefect)
    (iouThreshold : ℚ) : ValidationMetrics :=
  let allClasses := allClassesOf aiDefects gtDefects
  let st := finalState aiDefects gtDefects iouThreshold
  let totalTp := sumTp allClasses st.perClass
  let totalFp := sumFp allClasses st.perClass
  let totalFn := sumFn allClasses st.perClass
  let totalIouSum := sumIou allClasses st.perClass
  { «matches» := totalTp
    misses := totalFn
    falsePositives := totalFp
    averageIou := if 0 < totalTp then totalIouSum / (totalTp : ℚ) else 0
    precision := (calculatePrf totalTp totalFp totalFn).1
    «recall» := (calculatePrf totalTp totalFp totalFn).2.1
    f1Score := (calculatePrf totalTp totalFp totalFn).2.2
    perClassMetrics := allClasses.map (fun c => (c, mkClassMetrics (st.perClass c))) }

/-! ### Infrastructure lemmas for `compareDetections` -/

theorem mem_dedupFirst (l : List String) (x : String) :
    x ∈ dedupFirst l ↔ x ∈ l := by
  induction l with
  | nil => simp [dedupFirst]
  | cons c rest ih =>
    simp only [dedupFirst, List.mem_cons, List.mem_filter, ih]
    constructor
    · rintro (rfl | ⟨hx, -⟩)
      · exact Or.inl rfl
      · exact Or.inr hx
    · rintro (rfl | hx)
      · exact Or.inl rfl
      · by_cases hxc : x = c
        · exact Or.inl hxc
        · exact Or.inr ⟨hx, by simpa using hxc⟩

theorem nodup_dedupFirst (l : List String) : (dedupFirst l).Nodup := by
  induction l with
  | nil => simp [dedupFirst]
  | cons c rest ih =>
    simp only [dedupFirst]
    refine List.Nodup.cons ?_ (List.Nodup.filter _ ih)
    intro hc
    have hne := (List.mem_filter.mp hc).2
    simp at hne

theorem mem_enumIdx (p : ℕ × GroundTruthDefect) :
    ∀ (l : List GroundTruthDefect) (i : ℕ), p ∈ enumIdx i l →
      i ≤ p.1 ∧ p.1 < i + l.length ∧ p.2 ∈ l := by
  intro l
  induction l with
  | nil => intro i h; exact absurd h (by simp [enumIdx])
  | cons d rest ih =>
    intro i h
    rcases List.mem_cons.mp h with rfl | hmem
    · refine ⟨le_refl _, ?_, by simp⟩
      simp only [List.length_cons]
      omega
    · obtain ⟨h1, h2, h3⟩ := ih (i + 1) hmem
      refine ⟨by omega, ?_, List.mem_cons.mpr (Or.inr h3)⟩
      simp only [List.length_cons]
      omega

theorem findBest_result (aiType : String) (box : BoundingBox)
    (matched : Finset ℤ) :
    ∀ (gts : List (ℕ × GroundTruthDefect)) (acc : ℚ × ℤ),
      gts.foldl
        (fun best p =>
          if (p.1 : ℤ) ∉ matched ∧ capitalizeType p.2.type = aiType then
            let iou := calculateIou box p.2.boundingBox
            if best.1 < iou then (iou, (p.1 : ℤ)) else best
          else best) acc = acc ∨
      ∃ p ∈ gts,
        gts.foldl
          (fun best p =>
            if (p.1 : ℤ) ∉ matched ∧ capitalizeType p.2.type = aiType then
              let iou := calculateIou box p.2.boundingBox
              if best.1 < iou then (iou, (p.1 : ℤ)) else best
            else best) acc =
          (calculateIou box p.2.boundingBox, (p.1 : ℤ)) ∧ (p.1 : ℤ) ∉ matched := by
  intro gts
  induction gts with
  | nil => intro acc; exact Or.inl rfl
  | cons p rest ih =>
    intro acc
    rw [List.foldl_cons]
    rcases ih (if (p.1 : ℤ) ∉ matched ∧ capitalizeType p.2.type = aiType then
        if acc.1 < calculateIou box p.2.boundingBox then
          (calculateIou box p.2.boundingBox, (p.1 : ℤ)) else acc
      else acc) with heq | ⟨q, hq, heq, hqm⟩
    · by_cases h1 : (p.1 : ℤ) ∉ matched ∧ capitalizeType p.2.type = aiType
      · by_cases h2 : acc.1 < calculateIou box p.2.boundingBox
        · right
          refine ⟨p, List.mem_cons_self p rest, ?_, h1.1⟩
          rw [heq, if_pos h1, if_pos h2]
        · left
          rw [heq, if_pos h1, if_neg h2]
      · left
        rw [heq, if_neg h1]
    · right
      exact ⟨q, List.mem_cons.mpr (Or.inr hq), heq, hqm⟩

theorem findBest_cases (aiType : String) (box : BoundingBox)
    (gts : List (ℕ × GroundTruthDefect)) (matched : Finset ℤ) :
    findBest aiType box gts matched = (-1, -1) ∨
    ∃ p ∈ gts, findBest aiType box gts matched =
      (calculateIou box p.2.boundingBox, (p.1 : ℤ)) ∧ (p.1 : ℤ) ∉ matched := by
  exact findBest_result aiType box matched gts (-1, -1)

theorem sum_map_updClass {M : Type} [AddCommMonoid M] (g : ClassData → M) :
    ∀ (classes : List String), classes.Nodup → ∀ (k : String), k ∈ classes →
      ∀ (pc : String → ClassData) (v : ClassData),
      (classes.map (fun c => g (updClass pc k v c))).sum + g (pc k) =
      (classes.map (fun c => g (pc c))).sum + g v := by
  intro classes
  induction classes with
  | nil => intro _ k hk; exact absurd hk (by simp)
  | cons c rest ih =>
    intro hnodup k hk pc v
    have hcrest : c ∉ rest := (List.nodup_cons.mp hnodup).1
    have hrest : rest.Nodup := (List.nodup_cons.mp hnodup).2
    rcases List.mem_cons.mp hk with rfl | hkrest
    · have hmap : rest.map (fun x => g (updClass pc k v x)) =
          rest.map (fun x => g (pc x)) := by
        apply List.map_congr_left
        intro x hx
        have hxk : x ≠ k := fun hxe => hcrest (hxe ▸ hx)
        simp [updClass, if_neg hxk]
      rw [List.map_cons, List.map_cons, List.sum_cons, List.sum_cons, hmap]
      have hkk : updClass pc k v k = v := by simp [updClass]
      rw [hkk]
      abel
    · have hck : c ≠ k := fun hce => hcrest (hce ▸ hkrest)
      have hupd : updClass pc k v c = pc c := by simp [updClass, if_neg hck]
      simp only [List.map_cons, List.sum_cons, hupd]
      have := ih hrest k hkrest pc v
      calc g (pc c) + (rest.map (fun x => g (updClass pc k v x))).sum + g (pc k)
          = g (pc c) + ((rest.map (fun x => g (updClass pc k v x))).sum + g (pc k)) := by
            rw [add_assoc]
        _ = g (pc c) + ((rest.map (fun x => g (pc x))).sum + g v) := by rw [this]
        _ = g (pc c) + (rest.map (fun x => g (pc x))).sum + g v := by rw [add_assoc]

theorem processDetection_step (allClasses : List String) (hnodup : allClasses.Nodup)
    (gts : List GroundTruthDefect) (thr : ℚ) (h0 : 0 ≤ thr) (st : CompState)
    (d : Defect) (hd : normalizeAiType d.type ∈ allClasses)
    (hm : ∀ m ∈ st.matched, 0 ≤ m ∧ m < (gts.length : ℤ))
    (st1 : CompState)
    (hst1 : st1 = processDetection allClasses (enumIdx 0 gts) thr st d) :
    (∀ m ∈ st1.matched, 0 ≤ m ∧ m < (gts.length : ℤ)) ∧
    st1.matched.card + sumTp allClasses st.perClass =
      st.matched.card + sumTp allClasses st1.perClass ∧
    sumTp allClasses st1.perClass + sumFp allClasses st1.perClass =
      sumTp allClasses st.perClass + sumFp allClasses st.perClass + 1 ∧
    (∀ c, (st1.perClass c).fn = (st.perClass c).fn) := by
  by_cases hbr : thr ≤
      (findBest (normalizeAiType d.type) d.boundingBox (enumIdx 0 gts) st.matched).1
  · rcases findBest_cases (normalizeAiType d.type) d.boundingBox (enumIdx 0 gts)
        st.matched with hinit | ⟨p, hp, heq, hpm⟩
    · rw [hinit] at hbr
      norm_num at hbr
      linarith
    · have hbest : thr ≤ calculateIou d.boundingBox p.2.boundingBox := by
        rw [heq] at hbr
        exact hbr
      simp only [processDetection, heq, if_pos hbest] at hst1
      obtain ⟨hple, hplt, hpmem⟩ := mem_enumIdx p gts 0 hp
      have htp := sum_map_updClass ClassData.tp allClasses hnodup
        (normalizeAiType d.type) hd st.perClass
        { st.perClass (normalizeAiType d.type) with
            tp := (st.perClass (normalizeAiType d.type)).tp + 1,
            iouSum := (st.perClass (normalizeAiType d.type)).iouSum +
              (calculateIou d.boundingBox p.2.boundingBox) }
      have hfp := sum_map_updClass ClassData.fp allClasses hnodup
        (normalizeAiType d.type) hd st.perClass
        { st.perClass (normalizeAiType d.type) with
            tp := (st.perClass (normalizeAiType d.type)).tp + 1,
            iouSum := (st.perClass (normalizeAiType d.type)).iouSum +
              (calculateIou d.boundingBox p.2.boundingBox) }
      rw [hst1]
      refine ⟨?_, ?_, ?_, ?_⟩
      · intro m hmem
        rcases Finset.mem_insert.mp hmem with rfl | hmold
        · constructor
          · exact Int.ofNat_nonneg p.1
          · omega
        · exact hm m hmold
      · have hcard : (insert ((p.1 : ℤ)) st.matched).card = st.matched.card + 1 :=
          Finset.card_insert_of_not_mem hpm
        simp only [hcard, sumTp] at htp ⊢
        omega
      · simp only [sumTp, sumFp] at htp hfp ⊢
        omega
      · intro c
        by_cases hc : c = normalizeAiType d.type
        · simp [updClass, hc]
        · simp [updClass, if_neg hc]
  · simp only [processDetection, if_neg hbr, if_pos hd] at hst1
    have htp := sum_map_updClass ClassData.tp allClasses hnodup
      (normalizeAiType d.type) hd st.perClass
      { st.perClass (normalizeAiType d.type) with
          fp := (st.perClass (normalizeAiType d.type)).fp + 1 }
    have hfp := sum_map_updClass ClassData.fp allClasses hnodup
      (normalizeAiType d.type) hd st.perClass
      { st.perClass (normalizeAiType d.type) with
          fp := (st.perClass (normalizeAiType d.type)).fp + 1 }
    rw [hst1]
    refine ⟨?_, ?_, ?_, ?_⟩
    · exact hm
    · simp only [sumTp] at htp ⊢
      omega
    · simp only [sumTp, sumFp] at htp hfp ⊢
      omega
    · intro c
      by_cases hc : c = normalizeAiType d.type
      · simp [updClass, hc]
      · simp [updClass, if_neg hc]

theorem detect_fold_invariant (allClasses : List String) (hnodup : allClasses.Nodup)
    (gts : List GroundTruthDefect) (thr : ℚ) (h0 : 0 ≤ thr) :
    ∀ (ds : List Defect) (st : CompState),
      (∀ d ∈ ds, normalizeAiType d.type ∈ allClasses) →
      (∀ m ∈ st.matched, 0 ≤ m ∧ m < (gts.length : ℤ)) →
      (∀ m ∈ (ds.foldl (processDetection allClasses (enumIdx 0 gts) thr) st).matched,
          0 ≤ m ∧ m < (gts.length : ℤ)) ∧
      (ds.foldl (processDetection allClasses (enumIdx 0 gts) thr) st).matched.card +
          sumTp allClasses st.perClass =
        st.matched.card +
          sumTp allClasses
            (ds.foldl (processDetection allClasses (enumIdx 0 gts) thr) st).perClass ∧
      sumTp allClasses
          (ds.foldl (processDetection allClasses (enumIdx 0 gts) thr) st).perClass +
        sumFp allClasses
          (ds.foldl (processDetection allClasses (enumIdx 0 gts) thr) st).perClass =
        sumTp allClasses st.perClass + sumFp allClasses st.perClass + ds.length ∧
      (∀ c, ((ds.foldl (processDetection allClasses (enumIdx 0 gts) thr) st).perClass c).fn =
        (st.perClass c).fn) := by
  intro ds
  induction ds with
  | nil =>
    intro st _ hm
    exact ⟨hm, rfl, by simp, fun c => rfl⟩
  | cons d ds ih =>
    intro st hty hm
    have hstep := processDetection_step allClasses hnodup gts thr h0 st d
      (hty d (List.mem_cons_self d ds)) hm
      (processDetection allClasses (enumIdx 0 gts) thr st d) rfl
    obtain ⟨hm1, hcard1, hsum1, hfn1⟩ := hstep
    have hrest := ih (processDetection allClasses (enumIdx 0 gts) thr st d)
      (fun x hx => hty x (List.mem_cons.mpr (Or.inr hx))) hm1
    obtain ⟨hm2, hcard2, hsum2, hfn2⟩ := hrest
    rw [List.foldl_cons]
    refine ⟨hm2, by omega, ?_, fun c => (hfn2 c).trans (hfn1 c)⟩
    simp only [List.length_cons]
    omega

theorem markMiss_step (allClasses : List String) (hnodup : allClasses.Nodup)
    (st : CompState) (p : ℕ × GroundTruthDefect)
    (hp : capitalizeType p.2.type ∈ allClasses) :
    (markMiss allClasses st p).matched = st.matched ∧
    sumTp allClasses (markMiss allClasses st p).perClass =
      sumTp allClasses st.perClass ∧
    sumFp allClasses (markMiss allClasses st p).perClass =
      sumFp allClasses st.perClass ∧
    sumFn allClasses (markMiss allClasses st p).perClass =
      sumFn allClasses st.perClass +
        (if (p.1 : ℤ) ∈ st.matched then 0 else 1) ∧
    (∀ c, ((markMiss allClasses st p).perClass c).tp = (st.perClass c).tp ∧
      ((markMiss allClasses st p).perClass c).fp = (st.perClass c).fp) := by
  by_cases hmem : (p.1 : ℤ) ∈ st.matched
  · have hM : markMiss allClasses st p = st := by
      simp only [markMiss, if_pos hmem]
    rw [hM]
    exact ⟨rfl, rfl, rfl, by simp [if_pos hmem], fun c => ⟨rfl, rfl⟩⟩
  · have hM : markMiss allClasses st p =
        ⟨st.matched, updClass st.perClass (capitalizeType p.2.type)
          ⟨(st.perClass (capitalizeType p.2.type)).tp,
           (st.perClass (capitalizeType p.2.type)).fp,
           (st.perClass (capitalizeType p.2.type)).fn + 1,
           (st.perClass (capitalizeType p.2.type)).iouSum,
           (st.perClass (capitalizeType p.2.type)).totalGroundTruth⟩⟩ := by
      simp only [markMiss, if_neg hmem, if_pos hp]
    rw [hM]
    have htp := sum_map_updClass ClassData.tp allClasses hnodup
      (capitalizeType p.2.type) hp st.perClass
      ⟨(st.perClass (capitalizeType p.2.type)).tp,
       (st.perClass (capitalizeType p.2.type)).fp,
       (st.perClass (capitalizeType p.2.type)).fn + 1,
       (st.perClass (capitalizeType p.2.type)).iouSum,
       (st.perClass (capitalizeType p.2.type)).totalGroundTruth⟩
    have hfp := sum_map_updClass ClassData.fp allClasses hnodup
      (capitalizeType p.2.type) hp st.perClass
      ⟨(st.perClass (capitalizeType p.2.type)).tp,
       (st.perClass (capitalizeType p.2.type)).fp,
       (st.perClass (capitalizeType p.2.type)).fn + 1,
       (st.perClass (capitalizeType p.2.type)).iouSum,
       (st.perClass (capitalizeType p.2.type)).totalGroundTruth⟩
    have hfn := sum_map_updClass ClassData.fn allClasses hnodup
      (capitalizeType p.2.type) hp st.perClass
      ⟨(st.perClass (capitalizeType p.2.type)).tp,
       (st.perClass (capitalizeType p.2.type)).fp,
       (st.perClass (capitalizeType p.2.type)).fn + 1,
       (st.perClass (capitalizeType p.2.type)).iouSum,
       (st.perClass (capitalizeType p.2.type)).totalGroundTruth⟩
    refine ⟨rfl, ?_, ?_, ?_, ?_⟩
    · simp only [sumTp] at htp ⊢
      omega
    · simp only [sumFp] at hfp ⊢
      omega
    · simp only [sumFn, if_neg hmem] at hfn ⊢
      omega
    · intro c
      by_cases hc : c = capitalizeType p.2.type
      · simp [updClass, hc]
      · simp [updClass, if_neg hc]

theorem miss_fold (allClasses : List String) (hnodup : allClasses.Nodup) :
    ∀ (l : List (ℕ × GroundTruthDefect)) (st : CompState),
      (∀ p ∈ l, capitalizeType p.2.type ∈ allClasses) →
      (l.foldl (markMiss allClasses) st).matched = st.matched ∧
      sumTp allClasses (l.foldl (markMiss allClasses) st).perClass =
        sumTp allClasses st.perClass ∧
      sumFp allClasses (l.foldl (markMiss allClasses) st).perClass =
        sumFp allClasses st.perClass ∧
      sumFn allClasses (l.foldl (markMiss allClasses) st).perClass =
        sumFn allClasses st.perClass +
          l.countP (fun p => decide ((p.1 : ℤ) ∉ st.matched)) ∧
      (∀ c, ((l.foldl (markMiss allClasses) st).perClass c).tp = (st.perClass c).tp ∧
        ((l.foldl (markMiss allClasses) st).perClass c).fp = (st.perClass c).fp) := by
  intro l
  induction l with
  | nil =>
    intro st _
    exact ⟨rfl, rfl, rfl, by simp, fun c => ⟨rfl, rfl⟩⟩
  | cons p l ih =>
    intro st hty
    have hstep := markMiss_step allClasses hnodup st p (hty p (List.mem_cons_self p l))
    obtain ⟨hs1, hs2, hs3, hs4, hs5⟩ := hstep
    have hrest := ih (markMiss allClasses st p)
      (fun x hx => hty x (List.mem_cons.mpr (Or.inr hx)))
    obtain ⟨hr1, hr2, hr3, hr4, hr5⟩ := hrest
    rw [List.foldl_cons]
    have hcount : l.countP (fun q => decide ((q.1 : ℤ) ∉ (markMiss allClasses st p).matched)) =
        l.countP (fun q => decide ((q.1 : ℤ) ∉ st.matched)) := by
      apply List.countP_congr
      intro q _
      rw [hs1]
    refine ⟨hr1.trans hs1, hr2.trans hs2, hr3.trans hs3, ?_,
      fun c => ⟨(hr5 c).1.trans (hs5 c).1, (hr5 c).2.trans (hs5 c).2⟩⟩
    rw [hr4, hcount, hs4, List.countP_cons]
    by_cases hmem : (p.1 : ℤ) ∈ st.matched <;> simp [hmem] <;> omega

theorem countP_not_mem_enumIdx :
    ∀ (l : List GroundTruthDefect) (i : ℕ) (m : Finset ℤ),
      (∀ x ∈ m, (i : ℤ) ≤ x ∧ x < (i : ℤ) + l.length) →
      (enumIdx i l).countP (fun p => decide ((p.1 : ℤ) ∉ m)) + m.card = l.length := by
  intro l
  induction l with
  | nil =>
    intro i m hm
    have hempty : m = ∅ := by
      apply Finset.eq_empty_iff_forall_not_mem.mpr
      intro x hx
      have := hm x hx
      simp at this
      omega
    simp [hempty, enumIdx]
  | cons d rest ih =>
    intro i m hm
    show ((i, d) :: enumIdx (i + 1) rest).countP _ + m.card = rest.length + 1
    rw [List.countP_cons]
    by_cases hmem : (i : ℤ) ∈ m
    · have hpred : (decide ((((i, d) : ℕ × GroundTruthDefect).1 : ℤ) ∉ m)) = false := by
        simp [hmem]
      rw [hpred]
      have hcongr : (enumIdx (i + 1) rest).countP (fun p => decide ((p.1 : ℤ) ∉ m)) =
          (enumIdx (i + 1) rest).countP
            (fun p => decide ((p.1 : ℤ) ∉ m.erase (i : ℤ))) := by
        apply List.countP_congr
        intro q hq
        obtain ⟨hq1, -, -⟩ := mem_enumIdx q rest (i + 1) hq
        have hqne : (q.1 : ℤ) ≠ (i : ℤ) := by
          have : (i : ℤ) + 1 ≤ (q.1 : ℤ) := by exact_mod_cast hq1
          omega
        simp [Finset.mem_erase, hqne]
      have hrec := ih (i + 1) (m.erase (i : ℤ)) (by
        intro x hx
        obtain ⟨hxne, hxm⟩ := Finset.mem_erase.mp hx
        obtain ⟨h1, h2⟩ := hm x hxm
        constructor
        · push_cast
          omega
        · push_cast at h2 ⊢
          simp only [List.length_cons] at h2
          push_cast at h2
          omega)
      have hcard := Finset.card_erase_add_one hmem
      rw [hcongr]
      simp only [Bool.false_eq_true, if_false]
      omega
    · have hpred : (decide ((((i, d) : ℕ × GroundTruthDefect).1 : ℤ) ∉ m)) = true := by
        simp [hmem]
      rw [hpred]
      have hrec := ih (i + 1) m (by
        intro x hx
        obtain ⟨h1, h2⟩ := hm x hx
        have hxne : x ≠ (i : ℤ) := fun he => hmem (he ▸ hx)
        constructor
        · push_cast
          omega
        · push_cast at h2 ⊢
          simp only [List.length_cons] at h2
          push_cast at h2
          omega)
      simp only [eq_self_iff_true, ite_true]
      omega

theorem sumTp_initState (gts : List GroundTruthDefect) (classes : List String) :
    sumTp classes (initState gts).perClass = 0 := by
  simp [sumTp, initState, initClassData]

theorem sumFp_initState (gts : List GroundTruthDefect) (classes : List String) :
    sumFp classes (initState gts).perClass = 0 := by
  simp [sumFp, initState, initClassData]

theorem sumFn_eq_zero_of_all_zero (classes : List String) (pc : String → ClassData)
    (h : ∀ c, (pc c).fn = 0) : sumFn classes pc = 0 := by
  simp [sumFn, h]

theorem ai_class_mem (aiDefects : List Defect) (gtDefects : List GroundTruthDefect)
    (d : Defect) (hd : d ∈ aiDefects) :
    normalizeAiType d.type ∈ allClassesOf aiDefects gtDefects := by
  rw [allClassesOf, mem_dedupFirst]
  exact List.mem_append_right _ (List.mem_map_of_mem _ hd)

theorem gt_class_mem (aiDefects : List Defect) (gtDefects : List GroundTruthDefect)
    (g : GroundTruthDefect) (hg : g ∈ gtDefects) :
    capitalizeType g.type ∈ allClassesOf aiDefects gtDefects := by
  rw [allClassesOf, mem_dedupFirst]
  exact List.mem_append_left _ (List.mem_map_of_mem _ hg)

/-- C10: count conservation — for every detection list, reference list and
threshold `≥ 0`, `compareDetections` counts every detection as exactly one
true positive or one false positive (`matches + falsePositives` equals the
number of detections) and every reference as exactly one true positive or one
false negative (`matches + misses` equals the number of references). -/
theorem compareDetections_conservation (aiDefects : List Defect)
    (gtDefects : List GroundTruthDefect) (iouThreshold : ℚ)
    (h0 : 0 ≤ iouThreshold) :
    (compareDetections aiDefects gtDefects iouThreshold).«matches» +
      (compareDetections aiDefects gtDefects iouThreshold).falsePositives =
      aiDefects.length ∧
    (compareDetections aiDefects gtDefects iouThreshold).«matches» +
      (compareDetections aiDefects gtDefects iouThreshold).misses =
      gtDefects.length := by
  have hnodup : (allClassesOf aiDefects gtDefects).Nodup := nodup_dedupFirst _
  have hdet := detect_fold_invariant (allClassesOf aiDefects gtDefects) hnodup
    gtDefects iouThreshold h0 aiDefects (initState gtDefects)
    (fun d hd => ai_class_mem aiDefects gtDefects d hd)
    (by intro m hm; simp [initState] at hm)
  obtain ⟨hbound, hcard, hsum, hfn⟩ := hdet
  have hmiss := miss_fold (allClassesOf aiDefects gtDefects) hnodup
    (enumIdx 0 gtDefects) (detectState aiDefects gtDefects iouThreshold)
    (fun p hp => gt_class_mem aiDefects gtDefects p.2 (mem_enumIdx p gtDefects 0 hp).2.2)
  obtain ⟨hm1, hm2, hm3, hm4, hm5⟩ := hmiss
  have hcount := countP_not_mem_enumIdx gtDefects 0
    (detectState aiDefects gtDefects iouThreshold).matched
    (by
      intro x hx
      have := hbound x hx
      push_cast
      omega)
  have hdfold : detectState aiDefects gtDefects iouThreshold =
      aiDefects.foldl
        (processDetection (allClassesOf aiDefects gtDefects) (enumIdx 0 gtDefects)
          iouThreshold) (initState gtDefects) := rfl
  rw [← hdfold] at hbound hcard hsum hfn
  have hfn0 : sumFn (allClassesOf aiDefects gtDefects)
      (detectState aiDefects gtDefects iouThreshold).perClass = 0 := by
    apply sumFn_eq_zero_of_all_zero
    intro c
    exact (hfn c).trans (by simp [initState, initClassData])
  have hinit_tp := sumTp_initState gtDefects (allClassesOf aiDefects gtDefects)
  have hinit_fp := sumFp_initState gtDefects (allClassesOf aiDefects gtDefects)
  have hinit_card : (initState gtDefects).matched.card = 0 := by simp [initState]
  constructor
  · show sumTp (allClassesOf aiDefects gtDefects)
        ((enumIdx 0 gtDefects).foldl (markMiss (allClassesOf aiDefects gtDefects))
          (detectState aiDefects gtDefects iouThreshold)).perClass +
      sumFp (allClassesOf aiDefects gtDefects)
        ((enumIdx 0 gtDefects).foldl (markMiss (allClassesOf aiDefects gtDefects))
          (detectState aiDefects gtDefects iouThreshold)).perClass =
      aiDefects.length
    rw [hm2, hm3]
    omega
  · show sumTp (allClassesOf aiDefects gtDefects)
        ((enumIdx 0 gtDefects).foldl (markMiss (allClassesOf aiDefects gtDefects))
          (detectState aiDefects gtDefects iouThreshold)).perClass +
      sumFn (allClassesOf aiDefects gtDefects)
        ((enumIdx 0 gtDefects).foldl (markMiss (allClassesOf aiDefects gtDefects))
          (detectState aiDefects gtDefects iouThreshold)).perClass =
      gtDefects.length
    rw [hm2, hm4, hfn0]
    omega

/-- Witness for C10 on a one-detection, one-reference input. -/
theorem compareDetections_conservation_witness :
    (compareDetections [⟨"Pothole", ⟨0, 0, 1, 1⟩⟩] [⟨"pothole", ⟨0, 0, 1, 1⟩⟩]
        (1/2)).«matches» +
      (compareDetections [⟨"Pothole", ⟨0, 0, 1, 1⟩⟩] [⟨"pothole", ⟨0, 0, 1, 1⟩⟩]
        (1/2)).falsePositives =
      [(⟨"Pothole", ⟨0, 0, 1, 1⟩⟩ : Defect)].length ∧
    (compareDetections [⟨"Pothole", ⟨0, 0, 1, 1⟩⟩] [⟨"pothole", ⟨0, 0, 1, 1⟩⟩]
        (1/2)).«matches» +
      (compareDetections [⟨"Pothole", ⟨0, 0, 1, 1⟩⟩] [⟨"pothole", ⟨0, 0, 1, 1⟩⟩]
        (1/2)).misses =
      [(⟨"pothole", ⟨0, 0, 1, 1⟩⟩ : GroundTruthDefect)].length :=
  compareDetections_conservation [⟨"Pothole", ⟨0, 0, 1, 1⟩⟩]
    [⟨"pothole", ⟨0, 0, 1, 1⟩⟩] (1/2) (by norm_num)

theorem compareDetections_matches_eq (aiDefects : List Defect)
    (gtDefects : List GroundTruthDefect) (iouThreshold : ℚ) :
    (compareDetections aiDefects gtDefects iouThreshold).«matches» =
      sumTp (allClassesOf aiDefects gtDefects)
        (finalState aiDefects gtDefects iouThreshold).perClass := rfl

theorem compareDetections_misses_eq (aiDefects : List Defect)
    (gtDefects : List GroundTruthDefect) (iouThreshold : ℚ) :
    (compareDetections aiDefects gtDefects iouThreshold).misses =
      sumFn (allClassesOf aiDefects gtDefects)
        (finalState aiDefects gtDefects iouThreshold).perClass := rfl

theorem compareDetections_falsePositives_eq (aiDefects : List Defect)
    (gtDefects : List GroundTruthDefect) (iouThreshold : ℚ) :
    (compareDetections aiDefects gtDefects iouThreshold).falsePositives =
      sumFp (allClassesOf aiDefects gtDefects)
        (finalState aiDefects gtDefects iouThreshold).perClass := rfl

theorem compareDetections_averageIou_eq (aiDefects : List Defect)
    (gtDefects : List GroundTruthDefect) (iouThreshold : ℚ) :
    (compareDetections aiDefects gtDefects iouThreshold).averageIou =
      (if 0 < sumTp (allClassesOf aiDefects gtDefects)
          (finalState aiDefects gtDefects iouThreshold).perClass then
        sumIou (allClassesOf aiDefects gtDefects)
            (finalState aiDefects gtDefects iouThreshold).perClass /
          ((sumTp (allClassesOf aiDefects gtDefects)
            (finalState aiDefects gtDefects iouThreshold).perClass : ℕ) : ℚ)
      else 0) := rfl

theorem compareDetections_precision_eq (aiDefects : List Defect)
    (gtDefects : List GroundTruthDefect) (iouThreshold : ℚ) :
    (compareDetections aiDefects gtDefects iouThreshold).precision =
      (calculatePrf
        (sumTp (allClassesOf aiDefects gtDefects)
          (finalState aiDefects gtDefects iouThreshold).perClass)
        (sumFp (allClassesOf aiDefects gtDefects)
          (finalState aiDefects gtDefects iouThreshold).perClass)
        (sumFn (allClassesOf aiDefects gtDefects)
          (finalState aiDefects gtDefects iouThreshold).perClass)).1 := rfl

theorem compareDetections_recall_eq (aiDefects : List Defect)
    (gtDefects : List GroundTruthDefect) (iouThreshold : ℚ) :
    (compareDetections aiDefects gtDefects iouThreshold).«recall» =
      (calculatePrf
        (sumTp (allClassesOf aiDefects gtDefects)
          (finalState aiDefects gtDefects iouThreshold).perClass)
        (sumFp (allClassesOf aiDefects gtDefects)
          (finalState aiDefects gtDefects iouThreshold).perClass)
        (sumFn (allClassesOf aiDefects gtDefects)
          (finalState aiDefects gtDefects iouThreshold).perClass)).2.1 := rfl

theorem compareDetections_f1_eq (aiDefects : List Defect)
    (gtDefects : List GroundTruthDefect) (iouThreshold : ℚ) :
    (compareDetections aiDefects gtDefects iouThreshold).f1Score =
      (calculatePrf
        (sumTp (allClassesOf aiDefects gtDefects)
          (finalState aiDefects gtDefects iouThreshold).perClass)
        (sumFp (allClassesOf aiDefects gtDefects)
          (finalState aiDefects gtDefects iouThreshold).perClass)
        (sumFn (allClassesOf aiDefects gtDefects)
          (finalState aiDefects gtDefects iouThreshold).perClass)).2.2 := rfl

theorem compareDetections_perClass_eq (aiDefects : List Defect)
    (gtDefects : List GroundTruthDefect) (iouThreshold : ℚ) :
    (compareDetections aiDefects gtDefects iouThreshold).perClassMetrics =
      (allClassesOf aiDefects gtDefects).map
        (fun c => (c, mkClassMetrics
          ((finalState aiDefects gtDefects iouThreshold).perClass c))) := rfl

theorem calculatePrf_zero_tp_fp (fn : ℕ) : calculatePrf 0 0 fn = (0, 0, 0) := by
  unfold calculatePrf
  norm_num

/-- C5: with an empty detection list and a non-empty reference list,
`compareDetections` reports zero matches and false positives (overall and in
every category), misses equal to the reference count, `averageIou` `0`, and
overall precision, recall and F1 all `0`, through the general formulas. -/
theorem compareDetections_empty_detections (gtDefects : List GroundTruthDefect)
    (iouThreshold : ℚ) (hne : gtDefects ≠ []) :
    (compareDetections [] gtDefects iouThreshold).«matches» = 0 ∧
    (compareDetections [] gtDefects iouThreshold).falsePositives = 0 ∧
    (compareDetections [] gtDefects iouThreshold).misses = gtDefects.length ∧
    (compareDetections [] gtDefects iouThreshold).averageIou = 0 ∧
    (compareDetections [] gtDefects iouThreshold).precision = 0 ∧
    (compareDetections [] gtDefects iouThreshold).«recall» = 0 ∧
    (compareDetections [] gtDefects iouThreshold).f1Score = 0 ∧
    (∀ pr ∈ (compareDetections [] gtDefects iouThreshold).perClassMetrics,
      pr.2.tp = 0 ∧ pr.2.fp = 0) := by
  have hmiss := miss_fold (allClassesOf [] gtDefects) (nodup_dedupFirst _)
    (enumIdx 0 gtDefects) (initState gtDefects)
    (fun p hp => gt_class_mem [] gtDefects p.2 (mem_enumIdx p gtDefects 0 hp).2.2)
  obtain ⟨hm1, hm2, hm3, hm4, hm5⟩ := hmiss
  have hfin : finalState [] gtDefects iouThreshold =
      (enumIdx 0 gtDefects).foldl (markMiss (allClassesOf [] gtDefects))
        (initState gtDefects) := rfl
  have htp0 : sumTp (allClassesOf [] gtDefects)
      (finalState [] gtDefects iouThreshold).perClass = 0 := by
    rw [hfin, hm2, sumTp_initState]
  have hfp0 : sumFp (allClassesOf [] gtDefects)
      (finalState [] gtDefects iouThreshold).perClass = 0 := by
    rw [hfin, hm3, sumFp_initState]
  have hcnt := countP_not_mem_enumIdx gtDefects 0 ∅ (by intro x hx; simp at hx)
  have hfn_eq : sumFn (allClassesOf [] gtDefects)
      (finalState [] gtDefects iouThreshold).perClass = gtDefects.length := by
    rw [hfin, hm4]
    have hinitfn : sumFn (allClassesOf [] gtDefects)
        (initState gtDefects).perClass = 0 := by
      simp [sumFn, initState, initClassData]
    have hms : (initState gtDefects).matched = ∅ := rfl
    simp only [hms] at hm4 ⊢
    simp only [Finset.card_empty] at hcnt
    omega
  refine ⟨?_, ?_, ?_, ?_, ?_, ?_, ?_, ?_⟩
  · rw [compareDetections_matches_eq]
    exact htp0
  · rw [compareDetections_falsePositives_eq]
    exact hfp0
  · rw [compareDetections_misses_eq]
    exact hfn_eq
  · rw [compareDetections_averageIou_eq, htp0]
    simp
  · rw [compareDetections_precision_eq, htp0, hfp0, calculatePrf_zero_tp_fp]
  · rw [compareDetections_recall_eq, htp0, hfp0, calculatePrf_zero_tp_fp]
  · rw [compareDetections_f1_eq, htp0, hfp0, calculatePrf_zero_tp_fp]
  · rw [compareDetections_perClass_eq]
    intro pr hpr
    obtain ⟨c, hc, rfl⟩ := List.mem_map.mp hpr
    constructor
    · show (mkClassMetrics ((finalState [] gtDefects iouThreshold).perClass c)).tp = 0
      rw [mkClassMetrics, hfin]
      exact (hm5 c).1.trans rfl
    · show (mkClassMetrics ((finalState [] gtDefects iouThreshold).perClass c)).fp = 0
      rw [mkClassMetrics, hfin]
      exact (hm5 c).2.trans rfl

/-- Witness for C5 at a concrete one-element reference list. -/
theorem compareDetections_empty_detections_witness :
    (compareDetections [] [⟨"pothole", ⟨0, 0, 1, 1⟩⟩] (1/2)).«matches» = 0 ∧
    (compareDetections [] [⟨"pothole", ⟨0, 0, 1, 1⟩⟩] (1/2)).misses =
      [(⟨"pothole", ⟨0, 0, 1, 1⟩⟩ : GroundTruthDefect)].length :=
  ⟨(compareDetections_empty_detections [⟨"pothole", ⟨0, 0, 1, 1⟩⟩] (1/2)
      (by simp)).1,
   (compareDetections_empty_detections [⟨"pothole", ⟨0, 0, 1, 1⟩⟩] (1/2)
      (by simp)).2.2.1⟩

theorem calculatePrf_nonneg (tp fp fn : ℕ) :
    0 ≤ (calculatePrf tp fp fn).1 ∧ 0 ≤ (calculatePrf tp fp fn).2.1 := by
  unfold calculatePrf
  constructor
  · split_ifs <;> positivity
  · split_ifs <;> positivity

theorem calculatePrf_f1_char (tp fp fn : ℕ) :
    (calculatePrf tp fp fn).2.2 =
      if (calculatePrf tp fp fn).1 = 0 ∧ (calculatePrf tp fp fn).2.1 = 0 then 0
      else 2 * ((calculatePrf tp fp fn).1 * (calculatePrf tp fp fn).2.1) /
        ((calculatePrf tp fp fn).1 + (calculatePrf tp fp fn).2.1) := by
  obtain ⟨hp, hq⟩ := calculatePrf_nonneg tp fp fn
  have hf1 : (calculatePrf tp fp fn).2.2 =
      if 0 < (calculatePrf tp fp fn).1 + (calculatePrf tp fp fn).2.1 then
        2 * ((calculatePrf tp fp fn).1 * (calculatePrf tp fp fn).2.1) /
          ((calculatePrf tp fp fn).1 + (calculatePrf tp fp fn).2.1)
      else 0 := rfl
  rw [hf1]
  by_cases hc : (calculatePrf tp fp fn).1 = 0 ∧ (calculatePrf tp fp fn).2.1 = 0
  · rw [if_pos hc, if_neg (by rw [hc.1, hc.2]; norm_num)]
  · rw [if_neg hc]
    have hpos : 0 < (calculatePrf tp fp fn).1 + (calculatePrf tp fp fn).2.1 := by
      rcases not_and_or.mp hc with h | h
      · have := lt_of_le_of_ne hp (Ne.symm h)
        linarith
      · have := lt_of_le_of_ne hq (Ne.symm h)
        linarith
    rw [if_pos hpos]

/-- C4: `compareDetections` derives precision as `tp/(tp+fp)` (`0` on a zero
denominator), recall as `tp/(tp+fn)` (`0` on a zero denominator), F1 as the
harmonic mean of precision and recall (`0` when both are `0`), both per
category and for the aggregate totals, and reports `averageIou` as the
accumulated matched-IoU sum divided by the total true-positive count (`0`
when that count is `0`). -/
theorem compareDetections_formulas (aiDefects : List Defect)
    (gtDefects : List GroundTruthDefect) (iouThreshold : ℚ) :
    (compareDetections aiDefects gtDefects iouThreshold).precision =
      (if 0 < (compareDetections aiDefects gtDefects iouThreshold).«matches» +
          (compareDetections aiDefects gtDefects iouThreshold).falsePositives then
        ((compareDetections aiDefects gtDefects iouThreshold).«matches» : ℚ) /
          (((compareDetections aiDefects gtDefects iouThreshold).«matches» : ℚ) +
            ((compareDetections aiDefects gtDefects iouThreshold).falsePositives : ℚ))
      else 0) ∧
    (compareDetections aiDefects gtDefects iouThreshold).«recall» =
      (if 0 < (compareDetections aiDefects gtDefects iouThreshold).«matches» +
          (compareDetections aiDefects gtDefects iouThreshold).misses then
        ((compareDetections aiDefects gtDefects iouThreshold).«matches» : ℚ) /
          (((compareDetections aiDefects gtDefects iouThreshold).«matches» : ℚ) +
            ((compareDetections aiDefects gtDefects iouThreshold).misses : ℚ))
      else 0) ∧
    (compareDetections aiDefects gtDefects iouThreshold).f1Score =
      (if (compareDetections aiDefects gtDefects iouThreshold).precision = 0 ∧
          (compareDetections aiDefects gtDefects iouThreshold).«recall» = 0 then 0
      else 2 * ((compareDetections aiDefects gtDefects iouThreshold).precision *
          (compareDetections aiDefects gtDefects iouThreshold).«recall») /
        ((compareDetections aiDefects gtDefects iouThreshold).precision +
          (compareDetections aiDefects gtDefects iouThreshold).«recall»)) ∧
    (compareDetections aiDefects gtDefects iouThreshold).averageIou =
      (if 0 < (compareDetections aiDefects gtDefects iouThreshold).«matches» then
        sumIou (allClassesOf aiDefects gtDefects)
            (finalState aiDefects gtDefects iouThreshold).perClass /
          ((compareDetections aiDefects gtDefects iouThreshold).«matches» : ℚ)
      else 0) ∧
    (∀ pr ∈ (compareDetections aiDefects gtDefects iouThreshold).perClassMetrics,
      pr.2.precision =
        (if 0 < pr.2.tp + pr.2.fp then
          (pr.2.tp : ℚ) / ((pr.2.tp : ℚ) + (pr.2.fp : ℚ)) else 0) ∧
      pr.2.«recall» =
        (if 0 < pr.2.tp + pr.2.fn then
          (pr.2.tp : ℚ) / ((pr.2.tp : ℚ) + (pr.2.fn : ℚ)) else 0) ∧
      pr.2.f1Score =
        (if pr.2.precision = 0 ∧ pr.2.«recall» = 0 then 0
        else 2 * (pr.2.precision * pr.2.«recall») /
          (pr.2.precision + pr.2.«recall»))) := by
  refine ⟨rfl, rfl, ?_, rfl, ?_⟩
  · rw [compareDetections_f1_eq, compareDetections_precision_eq,
      compareDetections_recall_eq]
    exact calculatePrf_f1_char _ _ _
  · rw [compareDetections_perClass_eq]
    intro pr hpr
    obtain ⟨c, hc, rfl⟩ := List.mem_map.mp hpr
    refine ⟨rfl, rfl, ?_⟩
    exact calculatePrf_f1_char _ _ _

/-- Witness for C4 at a concrete input, exhibiting a member of
`perClassMetrics` and its per-class precision formula. -/
theorem compareDetections_formulas_witness :
    (("Pothole", mkClassMetrics
        ((finalState [] [⟨"pothole", ⟨0, 0, 1, 1⟩⟩] (1/2)).perClass "Pothole")) ∈
      (compareDetections [] [⟨"pothole", ⟨0, 0, 1, 1⟩⟩] (1/2)).perClassMetrics) ∧
    (mkClassMetrics
        ((finalState [] [⟨"pothole", ⟨0, 0, 1, 1⟩⟩] (1/2)).perClass "Pothole")).precision =
      (if 0 < (mkClassMetrics
            ((finalState [] [⟨"pothole", ⟨0, 0, 1, 1⟩⟩] (1/2)).perClass "Pothole")).tp +
          (mkClassMetrics
            ((finalState [] [⟨"pothole", ⟨0, 0, 1, 1⟩⟩] (1/2)).perClass "Pothole")).fp then
        ((mkClassMetrics
            ((finalState [] [⟨"pothole", ⟨0, 0, 1, 1⟩⟩] (1/2)).perClass "Pothole")).tp : ℚ) /
          (((mkClassMetrics
            ((finalState [] [⟨"pothole", ⟨0, 0, 1, 1⟩⟩] (1/2)).perClass "Pothole")).tp : ℚ) +
            ((mkClassMetrics
              ((finalState [] [⟨"pothole", ⟨0, 0, 1, 1⟩⟩] (1/2)).perClass "Pothole")).fp : ℚ))
      else 0) := by
  have hmem : (("Pothole", mkClassMetrics
      ((finalState [] [⟨"pothole", ⟨0, 0, 1, 1⟩⟩] (1/2)).perClass "Pothole")) ∈
      (compareDetections [] [⟨"pothole", ⟨0, 0, 1, 1⟩⟩] (1/2)).perClassMetrics) := by
    rw [compareDetections_perClass_eq]
    apply List.mem_map_of_mem
    show ("Pothole" : String) ∈ allClassesOf [] [⟨"pothole", ⟨0, 0, 1, 1⟩⟩]
    simp [allClassesOf, dedupFirst, capitalizeType]
  exact ⟨hmem,
    ((compareDetections_formulas [] [⟨"pothole", ⟨0, 0, 1, 1⟩⟩] (1/2)).2.2.2.2 _ hmem).1⟩

/-- C1: matching is one-to-one — with a single reference and two detections
of the reference's normalized type, both with IoU at or above the threshold
(itself `≥ 0`), exactly one detection (the first-processed one) becomes a
true positive and the other a false positive; the accumulated matched IoU is
the first detection's. -/
theorem compareDetections_one_to_one (gt : GroundTruthDefect) (d1 d2 : Defect)
    (thr : ℚ) (h0 : 0 ≤ thr)
    (h1 : normalizeAiType d1.type = capitalizeType gt.type)
    (h2 : normalizeAiType d2.type = capitalizeType gt.type)
    (hi1 : thr ≤ calculateIou d1.boundingBox gt.boundingBox)
    (hi2 : thr ≤ calculateIou d2.boundingBox gt.boundingBox) :
    (compareDetections [d1, d2] [gt] thr).«matches» = 1 ∧
    (compareDetections [d1, d2] [gt] thr).falsePositives = 1 ∧
    (compareDetections [d1, d2] [gt] thr).averageIou =
      calculateIou d1.boundingBox gt.boundingBox := by
  have hC : allClassesOf [d1, d2] [gt] = [capitalizeType gt.type] := by
    simp only [allClassesOf, List.map_cons, List.map_nil, h1, h2,
      List.cons_append, List.nil_append]
    simp [dedupFirst]
  have hfb1 : findBest (normalizeAiType d1.type) d1.boundingBox (enumIdx 0 [gt]) ∅ =
      (calculateIou d1.boundingBox gt.boundingBox, 0) := by
    show List.foldl _ (-1, -1) [(0, gt)] = _
    simp only [List.foldl_cons, List.foldl_nil]
    rw [if_pos ⟨Finset.not_mem_empty _, h1.symm⟩]
    rw [if_pos (show ((-1 : ℚ), (-1 : ℤ)).1 < calculateIou d1.boundingBox gt.boundingBox by
      show (-1 : ℚ) < _
      linarith)]
    simp
  have hst1 : processDetection (allClassesOf [d1, d2] [gt]) (enumIdx 0 [gt]) thr
      (initState [gt]) d1 =
      ⟨insert (0 : ℤ) ∅,
       updClass (initClassData [gt]) (normalizeAiType d1.type)
        ⟨1, 0, 0, calculateIou d1.boundingBox gt.boundingBox,
         (initClassData [gt] (normalizeAiType d1.type)).totalGroundTruth⟩⟩ := by
    simp only [processDetection, initState, hfb1]
    rw [if_pos (show thr ≤ (calculateIou d1.boundingBox gt.boundingBox, (0 : ℤ)).1 from hi1)]
    simp [initClassData]
  have hfb2 : findBest (normalizeAiType d2.type) d2.boundingBox (enumIdx 0 [gt])
      (insert (0 : ℤ) ∅) = (-1, -1) := by
    show List.foldl _ (-1, -1) [(0, gt)] = _
    simp only [List.foldl_cons, List.foldl_nil]
    rw [if_neg (fun hcon => hcon.1 (Finset.mem_insert_self 0 ∅))]
  have hg2mem : normalizeAiType d2.type ∈ allClassesOf [d1, d2] [gt] := by
    rw [hC, h2]
    exact List.mem_cons_self _ _
  have hst2 : processDetection (allClassesOf [d1, d2] [gt]) (enumIdx 0 [gt]) thr
      (⟨insert (0 : ℤ) ∅,
        updClass (initClassData [gt]) (normalizeAiType d1.type)
          ⟨1, 0, 0, calculateIou d1.boundingBox gt.boundingBox,
           (initClassData [gt] (normalizeAiType d1.type)).totalGroundTruth⟩⟩ : CompState)
      d2 =
      ⟨insert (0 : ℤ) ∅,
       updClass
         (updClass (initClassData [gt]) (normalizeAiType d1.type)
           ⟨1, 0, 0, calculateIou d1.boundingBox gt.boundingBox,
            (initClassData [gt] (normalizeAiType d1.type)).totalGroundTruth⟩)
         (normalizeAiType d2.type)
         ⟨1, 1, 0, calculateIou d1.boundingBox gt.boundingBox,
          (initClassData [gt] (normalizeAiType d1.type)).totalGroundTruth⟩⟩ := by
    simp only [processDetection, hfb2]
    rw [if_neg (show ¬ thr ≤ ((-1 : ℚ), (-1 : ℤ)).1 by
      show ¬ thr ≤ (-1 : ℚ)
      push_neg
      linarith)]
    rw [if_pos hg2mem]
    have hupd : updClass (initClassData [gt]) (normalizeAiType d1.type)
        ⟨1, 0, 0, calculateIou d1.boundingBox gt.boundingBox,
         (initClassData [gt] (normalizeAiType d1.type)).totalGroundTruth⟩
        (normalizeAiType d2.type) =
        ⟨1, 0, 0, calculateIou d1.boundingBox gt.boundingBox,
         (initClassData [gt] (normalizeAiType d1.type)).totalGroundTruth⟩ := by
      rw [updClass, if_pos (h2.trans h1.symm)]
    rw [hupd]
  have hmiss : (enumIdx 0 [gt]).foldl (markMiss (allClassesOf [d1, d2] [gt]))
      (⟨insert (0 : ℤ) ∅,
        updClass
          (updClass (initClassData [gt]) (normalizeAiType d1.type)
            ⟨1, 0, 0, calculateIou d1.boundingBox gt.boundingBox,
             (initClassData [gt] (normalizeAiType d1.type)).totalGroundTruth⟩)
          (normalizeAiType d2.type)
          ⟨1, 1, 0, calculateIou d1.boundingBox gt.boundingBox,
           (initClassData [gt] (normalizeAiType d1.type)).totalGroundTruth⟩⟩ : CompState) =
      ⟨insert (0 : ℤ) ∅,
       updClass
         (updClass (initClassData [gt]) (normalizeAiType d1.type)
           ⟨1, 0, 0, calculateIou d1.boundingBox gt.boundingBox,
            (initClassData [gt] (normalizeAiType d1.type)).totalGroundTruth⟩)
         (normalizeAiType d2.type)
         ⟨1, 1, 0, calculateIou d1.boundingBox gt.boundingBox,
          (initClassData [gt] (normalizeAiType d1.type)).totalGroundTruth⟩⟩ := by
    show List.foldl _ _ [(0, gt)] = _
    simp only [List.foldl_cons, List.foldl_nil]
    simp [markMiss]
  have hfinal : finalState [d1, d2] [gt] thr =
      ⟨insert (0 : ℤ) ∅,
       updClass
         (updClass (initClassData [gt]) (normalizeAiType d1.type)
           ⟨1, 0, 0, calculateIou d1.boundingBox gt.boundingBox,
            (initClassData [gt] (normalizeAiType d1.type)).totalGroundTruth⟩)
         (normalizeAiType d2.type)
         ⟨1, 1, 0, calculateIou d1.boundingBox gt.boundingBox,
          (initClassData [gt] (normalizeAiType d1.type)).totalGroundTruth⟩⟩ := by
    show (enumIdx 0 [gt]).foldl (markMiss (allClassesOf [d1, d2] [gt]))
      ([d1, d2].foldl
        (processDetection (allClassesOf [d1, d2] [gt]) (enumIdx 0 [gt]) thr)
        (initState [gt])) = _
    rw [List.foldl_cons, List.foldl_cons, List.foldl_nil, hst1, hst2, hmiss]
  have hpcfinal : ∀ q : ClassData,
      (updClass
        (updClass (initClassData [gt]) (normalizeAiType d1.type)
          ⟨1, 0, 0, calculateIou d1.boundingBox gt.boundingBox,
           (initClassData [gt] (normalizeAiType d1.type)).totalGroundTruth⟩)
        (normalizeAiType d2.type)
        ⟨1, 1, 0, calculateIou d1.boundingBox gt.boundingBox,
         (initClassData [gt] (normalizeAiType d1.type)).totalGroundTruth⟩)
        (capitalizeType gt.type) =
      ⟨1, 1, 0, calculateIou d1.boundingBox gt.boundingBox,
       (initClassData [gt] (normalizeAiType d1.type)).totalGroundTruth⟩ := by
    intro q
    rw [updClass, if_pos h2.symm]
  refine ⟨?_, ?_, ?_⟩
  · rw [compareDetections_matches_eq, hfinal, hC]
    simp only [sumTp, List.map_cons, List.map_nil, List.sum_cons, List.sum_nil]
    rw [hpcfinal ⟨0, 0, 0, 0, 0⟩]
    rfl
  · rw [compareDetections_falsePositives_eq, hfinal, hC]
    simp only [sumFp, List.map_cons, List.map_nil, List.sum_cons, List.sum_nil]
    rw [hpcfinal ⟨0, 0, 0, 0, 0⟩]
    rfl
  · rw [compareDetections_averageIou_eq, hfinal, hC]
    simp only [sumTp, sumIou, List.map_cons, List.map_nil, List.sum_cons, List.sum_nil]
    rw [hpcfinal ⟨0, 0, 0, 0, 0⟩]
    simp

/-- Witness for C1: one reference, two identical-type overlapping detections
at threshold `1/2` — one true positive, one false positive. -/
theorem compareDetections_one_to_one_witness :
    (compareDetections [⟨"Pothole", ⟨0, 0, 1, 1⟩⟩, ⟨"Pothole", ⟨0, 0, 1, 1⟩⟩]
      [⟨"pothole", ⟨0, 0, 1, 1⟩⟩] (1/2)).«matches» = 1 ∧
    (compareDetections [⟨"Pothole", ⟨0, 0, 1, 1⟩⟩, ⟨"Pothole", ⟨0, 0, 1, 1⟩⟩]
      [⟨"pothole", ⟨0, 0, 1, 1⟩⟩] (1/2)).falsePositives = 1 :=
  ⟨(compareDetections_one_to_one ⟨"pothole", ⟨0, 0, 1, 1⟩⟩ ⟨"Pothole", ⟨0, 0, 1, 1⟩⟩
      ⟨"Pothole", ⟨0, 0, 1, 1⟩⟩ (1/2) (by norm_num) (by decide) (by decide)
      (by norm_num [calculateIou]) (by norm_num [calculateIou])).1,
   (compareDetections_one_to_one ⟨"pothole", ⟨0, 0, 1, 1⟩⟩ ⟨"Pothole", ⟨0, 0, 1, 1⟩⟩
      ⟨"Pothole", ⟨0, 0, 1, 1⟩⟩ (1/2) (by norm_num) (by decide) (by decide)
      (by norm_num [calculateIou]) (by norm_num [calculateIou])).2.1⟩

/-- C6: normalization is stateless and element-wise — every reference label
normalizes to its first character upper-cased with the remainder lower-cased;
every detection label (drawn from the `Defect['type']` union, the domain the
types and the AI response schema impose) containing `crack`
case-insensitively normalizes to `"Crack"`, every one containing `pothole`
normalizes to `"Pothole"`, and all others pass through unchanged; and
`compareDetections` applies these functions to every element via `map`. -/
theorem normalization_rules :
    (∀ s : String, (capitalizeType s).data =
      (s.data.take 1).map Char.toUpper ++ (s.data.drop 1).map Char.toLower) ∧
    (∀ t ∈ defectTypeValues,
      (jsIncludes (jsToLower t) ("crack") = true → normalizeAiType t = "Crack") ∧
      (jsIncludes (jsToLower t) ("pothole") = true → normalizeAiType t = "Pothole") ∧
      (jsIncludes (jsToLower t) ("crack") = false →
        jsIncludes (jsToLower t) ("pothole") = false → normalizeAiType t = t)) ∧
    (∀ (aiDefects : List Defect) (gtDefects : List GroundTruthDefect),
      allClassesOf aiDefects gtDefects =
        dedupFirst (gtDefects.map (fun d => capitalizeType d.type) ++
          aiDefects.map (fun d => normalizeAiType d.type))) := by
  refine ⟨?_, by decide, fun _ _ => rfl⟩
  intro s
  unfold capitalizeType
  cases h : s.data with
  | nil => simp
  | cons c rest => simp

/-- Witness for C6 at two concrete detection labels from the union. -/
theorem normalization_rules_witness :
    normalizeAiType "Alligator Crack" = "Crack" ∧
    normalizeAiType "Pothole" = "Pothole" :=
  ⟨(normalization_rules.2.1 "Alligator Crack" (by decide)).1 (by decide),
   (normalization_rules.2.1 "Pothole" (by decide)).2.1 (by decide)⟩

end RoadGuard
